import Mathlib

/-!
Shallow embedding of the mtg-card-organizer core (src/models.rs, src/mtg.rs,
src/app.rs).  Rust strings are modelled as `String` / `List Char`, `i32` as
`Int` (with the i32 range check where Rust's `str::parse::<i32>` can fail),
`HashMap<Uuid, Deck>` as an association list `List (Uuid × Deck)`, and the
external collaborators (the scryfall catalog client and the skim fuzzy
matcher) as function parameters.  Rust panics (`unwrap` / `expect`) are
modelled as `Option.none` results.
-/

namespace MtgOrganizer

/-- models.rs: `Card { name, img }`. -/
structure Card where
  name : String
  img : String
deriving DecidableEq, Repr

/-- models.rs: `CardInDeck { quantity: i32, current_quantity: i32, card }`. -/
structure CardInDeck where
  quantity : Int
  current_quantity : Int
  card : Card
deriving DecidableEq, Repr

/-- `uuid::Uuid` is an opaque identity; we model it by its string form. -/
abbrev Uuid := String

/-- models.rs: `Deck { name, cards }`. -/
structure Deck where
  name : String
  cards : List CardInDeck
deriving DecidableEq, Repr

/-- models.rs: `IndexedCard { name, img, deck_id }`. -/
structure IndexedCard where
  name : String
  img : String
  deck_id : Uuid
deriving DecidableEq, Repr

/-- mtg.rs: `CardErrorInsight { card_name, error }`. -/
structure CardErrorInsight where
  card_name : String
  error : String
deriving DecidableEq, Repr

/-! ### Rust string primitives used by mtg.rs -/

/-- `str::lines` strips one trailing `'\r'` from each segment that was
terminated by `'\n'`. -/
def stripCR (l : List Char) : List Char :=
  match l.reverse with
  | '\r' :: rest => rest.reverse
  | _ => l

/-- Split a character list at every `'\n'`, keeping empty segments
(the shape of `str::split('\n')`). -/
def splitOnNL : List Char → List (List Char)
  | [] => [[]]
  | c :: cs =>
    if c = '\n' then [] :: splitOnNL cs
    else
      match splitOnNL cs with
      | [] => [[c]]
      | seg :: rest => (c :: seg) :: rest

/-- `str::lines`: split on `'\n'`, strip a `'\r'` preceding each `'\n'`,
and drop the final segment when the input ends with a newline. -/
def rustLines (s : List Char) : List (List Char) :=
  match (splitOnNL s).reverse with
  | [] => []
  | last :: revInit =>
    let init := revInit.reverse.map stripCR
    if last = [] then init else init ++ [last]

/-- `str::trim`: drop whitespace from both ends. -/
def trimChars (l : List Char) : List Char :=
  ((l.dropWhile Char.isWhitespace).reverse.dropWhile Char.isWhitespace).reverse

/-- `str::split_whitespace`: maximal runs of non-whitespace characters. -/
def splitWS : List Char → List Char → List (List Char)
  | [], [] => []
  | [], acc => [acc.reverse]
  | c :: cs, acc =>
    if c.isWhitespace then
      match acc with
      | [] => splitWS cs []
      | acc => acc.reverse :: splitWS cs []
    else splitWS cs (c :: acc)

/-- Decimal digit value of a character, when it is a digit. -/
def digitVal (c : Char) : Option Nat :=
  if c.isDigit then some (c.toNat - 48) else none

/-- Parse a non-empty all-digit run as a natural number. -/
def parseDigits : List Char → Option Nat
  | [] => none
  | ds => ds.foldlM (fun acc c => (digitVal c).map (fun d => acc * 10 + d)) 0

/-- `str::parse::<i32>`: optional sign, one or more digits, i32 range. -/
def parseI32 (s : List Char) : Option Int :=
  let signed : Option Int :=
    match s with
    | '+' :: rest => (parseDigits rest).map Int.ofNat
    | '-' :: rest => (parseDigits rest).map (fun n => -(Int.ofNat n))
    | _ => (parseDigits s).map Int.ofNat
  signed.bind (fun n =>
    if -(2 ^ 31) ≤ n ∧ n ≤ 2 ^ 31 - 1 then some n else none)

/-! ### The catalog client (external collaborator, mtg.rs) -/

/-- Shape of `scryfall::Card::image_uris` as used by mtg.rs. -/
structure ImageUris where
  small : Option String
  png : Option String
deriving DecidableEq, Repr

/-- Shape of the catalog's canonical card as used by mtg.rs. -/
structure ScryfallCard where
  name : String
  image_uris : Option ImageUris
deriving DecidableEq, Repr

/-- `scryfall::Card::named_fuzzy` is external; we model it as a function
from the candidate name to a canonical card or an error message. -/
abbrev Catalog := String → Except String ScryfallCard

/-- mtg.rs: `c.image_uris.map(|imgs| imgs.small.or(imgs.png).map(to_string)
.unwrap_or(default)).unwrap_or(default)`. -/
def scryfallImg (c : ScryfallCard) : String :=
  ((c.image_uris.map (fun imgs =>
    ((imgs.small.or imgs.png).map (fun url => url)).getD "")).getD "")

/-! ### The decklist resolver (mtg.rs `process_decklist`) -/

/-- mtg.rs lines 18-23: split a line on whitespace; the first token is parsed
with `parse::<i32>().unwrap_or(0)` (a missing token defaults to `"0"`), the
rest are rejoined with single spaces as the candidate name. -/
def parseLine (l : List Char) : Int × String :=
  let split := splitWS l []
  let quantity : Int := (parseI32 ((split.head?).getD ['0'])).getD 0
  let name := String.mk (List.intercalate [' '] split.tail)
  (quantity, name)

/-- One iteration of the resolution loop (mtg.rs lines 28-53): quantity `0`
short-circuits with an `"Invalid quantity"` insight, otherwise the catalog is
consulted and success/failure is pushed to the respective vector. -/
def processLine (catalog : Catalog) (l : List Char) :
    Sum CardInDeck CardErrorInsight :=
  let card := parseLine l
  if card.1 = 0 then
    Sum.inr ⟨card.2, "Invalid quantity"⟩
  else
    match catalog card.2 with
    | Except.ok c =>
      Sum.inl ⟨card.1, 0, ⟨c.name, scryfallImg c⟩⟩
    | Except.error e => Sum.inr ⟨card.2, e⟩

/-- mtg.rs line 18: `decklist.lines().filter(|l| !l.trim().is_empty())`. -/
def nonBlankLines (decklist : String) : List (List Char) :=
  (rustLines decklist.data).filter (fun l => !(trimChars l).isEmpty)

/-- The push onto `cards_in_deck` keeps the successful results. -/
def takeResolved : Sum CardInDeck CardErrorInsight → Option CardInDeck
  | Sum.inl c => some c
  | Sum.inr _ => none

/-- The push onto `errors` keeps the failed results. -/
def takeError : Sum CardInDeck CardErrorInsight → Option CardErrorInsight
  | Sum.inl _ => none
  | Sum.inr e => some e

/-- mtg.rs `process_decklist`: each non-blank line is resolved in order and
its result pushed onto `cards_in_deck` or `errors`; the loop is the
order-preserving partition of the per-line results. -/
def process_decklist (catalog : Catalog) (decklist : String) :
    List CardInDeck × List CardErrorInsight :=
  let results := (nonBlankLines decklist).map (processLine catalog)
  (results.filterMap takeResolved, results.filterMap takeError)

/-! ### Fuzzy search (app.rs `fuzzy_top_n`) -/

/-- `SkimMatcherV2::fuzzy_match(choice, pattern)` is external; we model it
as a function returning an optional i64 score. -/
abbrev Matcher := String → String → Option Int

/-- app.rs line 455: `matcher.fuzzy_match(&c.name, query).unwrap_or(0)`. -/
def scoreOf (matcher : Matcher) (query : String) (c : IndexedCard) : Int :=
  (matcher c.name query).getD 0

/-- app.rs line 455: the decoration `(card, score)` of every index entry. -/
def scorePairs (matcher : Matcher) (query : String)
    (cards : List IndexedCard) : List (IndexedCard × Int) :=
  cards.map (fun c => (c, scoreOf matcher query c))

/-- app.rs line 457: the comparator `|(_,a),(_,b)| b.cmp(a)` — `x` may
precede `y` exactly when `y`'s score ≤ `x`'s score. -/
def scoreLE (x y : IndexedCard × Int) : Bool :=
  decide (y.2 ≤ x.2)

/-- app.rs `fuzzy_top_n`: decorate each card with its score, stably sort
descending by score (Rust's `Vec::sort_by` is a stable sort; `mergeSort` is
the stable sort here), then take the first `min(top, len)` cards. -/
def fuzzy_top_n (matcher : Matcher) (query : String)
    (cards : List IndexedCard) (top : Nat) : List IndexedCard :=
  let sorted := (scorePairs matcher query cards).mergeSort scoreLE
  let max_results := if top < sorted.length then top else sorted.length
  (sorted.take max_results).map (fun p => p.1)

/-! ### Application state (app.rs `App`) -/

/-- Image bytes are opaque blobs. -/
abbrev Bytes := List Nat

/-- app.rs `App`: the fields of the core state (the UI section and the text
editor widget carry no verified behavior and are omitted). -/
structure AppState where
  decks : List (Uuid × Deck)
  deck_output : String
  deck_in_progress : Option (List CardInDeck)
  deck_name : String
  search_text : String
  card_index : List IndexedCard
  search_result : List IndexedCard
  image_cache : List (String × Bytes)
deriving DecidableEq

/-- app.rs `build_card_index`. -/
def build_card_index (deck_id : Uuid) (cards : List CardInDeck) :
    List IndexedCard :=
  cards.map (fun c => ⟨c.card.name, c.card.img, deck_id⟩)

/-- `HashMap::insert` on the association-list model: replace the entry when
the key is present, otherwise append. -/
def insertDeck (id : Uuid) (d : Deck) (m : List (Uuid × Deck)) :
    List (Uuid × Deck) :=
  if m.any (fun p => p.1 == id) then
    m.map (fun p => if p.1 == id then (id, d) else p)
  else m ++ [(id, d)]

/-- app.rs `CreateDeck` arm: `deck_in_progress.expect("oops")` panics
(`none`) when no resolution is in hand; otherwise insert the new deck under
the fresh id, append its index entries, and reset the builder fields. -/
def createDeck (s : AppState) (deck_id : Uuid) : Option AppState :=
  match s.deck_in_progress with
  | none => none
  | some cards =>
    some { s with
      decks := insertDeck deck_id ⟨s.deck_name, cards⟩ s.decks
      card_index := s.card_index ++ build_card_index deck_id cards
      deck_in_progress := none
      deck_output := ""
      deck_name := "" }

/-- app.rs `DeleteDeck` arm: `decks.remove(&id)` and
`card_index.filter(|c| c.deck_id != id)`. -/
def deleteDeck (s : AppState) (id : Uuid) : AppState :=
  { s with
    decks := s.decks.filter (fun p => p.1 != id)
    card_index := s.card_index.filter (fun c => c.deck_id != id) }

/-- The shared body of the `AddCard` / `RemoveCard` arms:
`deck.cards.iter_mut().filter(|c| c.card.name == card_name)
.for_each(|c| c.current_quantity += delta)`. -/
def adjustCards (card_name : String) (delta : Int)
    (cards : List CardInDeck) : List CardInDeck :=
  cards.map (fun c =>
    if c.card.name == card_name then
      { c with current_quantity := c.current_quantity + delta }
    else c)

/-- `HashMap::get_mut` + in-place mutation: rewrite the deck stored under
`deck_id`, when present. -/
def modifyDeck (deck_id : Uuid) (f : Deck → Deck)
    (s : AppState) : AppState :=
  match s.decks.lookup deck_id with
  | none => s
  | some _ =>
    { s with
      decks := s.decks.map (fun p =>
        if p.1 == deck_id then (p.1, f p.2) else p) }

/-- app.rs `AddCard` arm: unclamped `current_quantity += 1` on every card of
the deck whose name matches. -/
def addCard (s : AppState) (deck_id : Uuid) (card_name : String) : AppState :=
  modifyDeck deck_id
    (fun d => { d with cards := adjustCards card_name 1 d.cards }) s

/-- app.rs `RemoveCard` arm: unclamped `current_quantity -= 1`. -/
def removeCard (s : AppState) (deck_id : Uuid) (card_name : String) :
    AppState :=
  modifyDeck deck_id
    (fun d => { d with cards := adjustCards card_name (-1) d.cards }) s

/-! ### Persistence boundary (app.rs `Import` / `Export` arms)

The serialization itself is the serde-derived code for models.rs, which is
generated outside src/.  Modelled from the spec: "decks are serialized as a
mapping from deck UUID (string form) to `Deck{name, cards}` records"; we
embed the payload as a JSON value tree (the string layer of serde_json is
not modelled). -/

/-- A JSON value tree. -/
inductive Json where
  | str : String → Json
  | num : Int → Json
  | obj : List (String × Json) → Json
  | arr : List Json → Json

/-- Modelled from the spec: serde serialization of `Card`. -/
def encodeCard (c : Card) : Json :=
  Json.obj [("name", Json.str c.name), ("img", Json.str c.img)]

/-- Modelled from the spec: serde deserialization of `Card`. -/
def decodeCard : Json → Option Card
  | Json.obj [("name", Json.str n), ("img", Json.str i)] => some ⟨n, i⟩
  | _ => none

/-- Modelled from the spec: serde serialization of `CardInDeck`. -/
def encodeCardInDeck (c : CardInDeck) : Json :=
  Json.obj [("quantity", Json.num c.quantity),
    ("current_quantity", Json.num c.current_quantity),
    ("card", encodeCard c.card)]

/-- Modelled from the spec: serde deserialization of `CardInDeck`. -/
def decodeCardInDeck : Json → Option CardInDeck
  | Json.obj [("quantity", Json.num q), ("current_quantity", Json.num cq),
      ("card", jc)] =>
    (decodeCard jc).map (fun c => ⟨q, cq, c⟩)
  | _ => none

/-- Modelled from the spec: serde serialization of `Deck`. -/
def encodeDeck (d : Deck) : Json :=
  Json.obj [("name", Json.str d.name),
    ("cards", Json.arr (d.cards.map encodeCardInDeck))]

/-- Sequential deserialization of a card array. -/
def decodeCards : List Json → Option (List CardInDeck)
  | [] => some []
  | j :: js =>
    (decodeCardInDeck j).bind (fun c =>
      (decodeCards js).map (fun cs => c :: cs))

/-- Modelled from the spec: serde deserialization of `Deck`. -/
def decodeDeck : Json → Option Deck
  | Json.obj [("name", Json.str n), ("cards", Json.arr jcs)] =>
    (decodeCards jcs).map (fun cs => ⟨n, cs⟩)
  | _ => none

/-- Modelled from the spec: the deck store serializes as a mapping from the
UUID's string form to the deck record. -/
def encodeDecks (m : List (Uuid × Deck)) : Json :=
  Json.obj (m.map (fun p => (p.1, encodeDeck p.2)))

/-- Sequential deserialization of the mapping's entries. -/
def decodeEntries : List (String × Json) → Option (List (Uuid × Deck))
  | [] => some []
  | (k, v) :: l =>
    (decodeDeck v).bind (fun d =>
      (decodeEntries l).map (fun m => (k, d) :: m))

/-- Modelled from the spec: deserialization of the deck mapping. -/
def decodeDecks : Json → Option (List (Uuid × Deck))
  | Json.obj l => decodeEntries l
  | _ => none

/-- app.rs `Import` arm after the file dialog: the payload is fed to
`serde_json::from_str(&json).unwrap()` — a malformed payload panics
(`none`).  On success the deck store is replaced and the search state,
image cache and card index are reset, the index being rebuilt from the new
decks. -/
def importDecks (s : AppState) (payload : Json) : Option AppState :=
  match decodeDecks payload with
  | none => none
  | some decks =>
    some { s with
      decks := decks
      search_result := []
      image_cache := []
      card_index := decks.flatMap (fun p => build_card_index p.1 p.2.cards)
      search_text := "" }

/-- app.rs `Export` arm: `serde_json::to_string(&self.decks)` (the write to
disk is outside the model); serialization of these types cannot fail. -/
def exportDecks (s : AppState) : Json :=
  encodeDecks s.decks

/-! ### Theorems -/

/-- C10: Adjusting quantities against a deck id that is not in the store is
a complete no-op: both the add-card and the remove-card operation return the
application state unchanged in every field. -/
theorem c10_absent_deck_noop (s : AppState) (deck_id : Uuid)
    (card_name : String) (h : s.decks.lookup deck_id = none) :
    addCard s deck_id card_name = s ∧ removeCard s deck_id card_name = s := by
  constructor <;> simp [addCard, removeCard, modifyDeck, h]

/-- C10 witness: a concrete state with one deck, adjusted under an absent
id. -/
theorem c10_absent_deck_noop_witness :
    (⟨[("d1", ⟨"Main", []⟩)], "", none, "", "", [], [], []⟩ : AppState).decks.lookup "d2" = none
    ∧ addCard ⟨[("d1", ⟨"Main", []⟩)], "", none, "", "", [], [], []⟩ "d2" "Bolt"
      = ⟨[("d1", ⟨"Main", []⟩)], "", none, "", "", [], [], []⟩
    ∧ removeCard ⟨[("d1", ⟨"Main", []⟩)], "", none, "", "", [], [], []⟩ "d2" "Bolt"
      = ⟨[("d1", ⟨"Main", []⟩)], "", none, "", "", [], [], []⟩ :=
  ⟨rfl,
   (c10_absent_deck_noop ⟨[("d1", ⟨"Main", []⟩)], "", none, "", "", [], [], []⟩ "d2" "Bolt" rfl).1,
   (c10_absent_deck_noop ⟨[("d1", ⟨"Main", []⟩)], "", none, "", "", [], [], []⟩ "d2" "Bolt" rfl).2⟩

/-- C6: Deleting a deck present in the store removes exactly the card-index
entries carrying that deck's id: the new index is the filter of the old one,
an entry survives iff it was there and belongs to another deck, and the
survivors keep their original relative order (sublist). -/
theorem c6_delete_deck_index (s : AppState) (id : Uuid)
    (h : (s.decks.lookup id).isSome) :
    (deleteDeck s id).card_index = s.card_index.filter (fun c => c.deck_id != id)
    ∧ (∀ c : IndexedCard,
        c ∈ (deleteDeck s id).card_index ↔ c ∈ s.card_index ∧ c.deck_id ≠ id)
    ∧ (deleteDeck s id).card_index.Sublist s.card_index := by
  refine ⟨rfl, ?_, List.filter_sublist _⟩
  intro c
  simp [deleteDeck, List.mem_filter]

/-- C6 witness: deleting deck `d1` from a two-deck index keeps exactly the
entry of deck `d2`. -/
theorem c6_delete_deck_index_witness :
    (deleteDeck ⟨[("d1", ⟨"A", []⟩)], "", none, "", "", [⟨"x", "", "d1"⟩, ⟨"y", "", "d2"⟩], [], []⟩ "d1").card_index
      = [⟨"y", "", "d2"⟩] := by
  have h := c6_delete_deck_index
    ⟨[("d1", ⟨"A", []⟩)], "", none, "", "", [⟨"x", "", "d1"⟩, ⟨"y", "", "d2"⟩], [], []⟩ "d1" (by decide)
  rw [h.1]
  decide

/-- C1: the code's adjust-quantity is NOT clamped.  At a concrete deck whose
only card has `current_quantity = 0`, the remove-card operation drives
`current_quantity` to `-1` and changes the state (the claim demands a
no-op); dually, at `current_quantity = quantity = 4`, add-card drives it to
`5` above `quantity`. -/
theorem c1_adjust_quantity_unclamped :
    removeCard ⟨[("d1", ⟨"Main", [⟨4, 0, ⟨"Bolt", "i"⟩⟩]⟩)], "", none, "", "", [], [], []⟩ "d1" "Bolt"
      = ⟨[("d1", ⟨"Main", [⟨4, -1, ⟨"Bolt", "i"⟩⟩]⟩)], "", none, "", "", [], [], []⟩
    ∧ removeCard ⟨[("d1", ⟨"Main", [⟨4, 0, ⟨"Bolt", "i"⟩⟩]⟩)], "", none, "", "", [], [], []⟩ "d1" "Bolt"
      ≠ ⟨[("d1", ⟨"Main", [⟨4, 0, ⟨"Bolt", "i"⟩⟩]⟩)], "", none, "", "", [], [], []⟩
    ∧ addCard ⟨[("d1", ⟨"Main", [⟨4, 4, ⟨"Bolt", "i"⟩⟩]⟩)], "", none, "", "", [], [], []⟩ "d1" "Bolt"
      = ⟨[("d1", ⟨"Main", [⟨4, 5, ⟨"Bolt", "i"⟩⟩]⟩)], "", none, "", "", [], [], []⟩ := by
  refine ⟨by decide, by decide, by decide⟩

/-- C2: the import operation panics (modelled as `none`) on a malformed
payload instead of failing gracefully with the prior state intact: the
payload `3` is not a deck mapping, and the code unwraps the parse result. -/
theorem c2_import_panics_on_malformed :
    importDecks ⟨[("d1", ⟨"Main", [⟨4, 2, ⟨"Bolt", "i"⟩⟩]⟩)], "", none, "", "", [], [], []⟩ (Json.num 3)
      = none := rfl

/-- A concrete catalog that resolves exactly the name `"Foo"`. -/
def cat3 : Catalog := fun n =>
  if n = "Foo" then Except.ok ⟨"Foo", none⟩ else Except.error "not found"

/-- C3 counterexample: the line `"-1 Foo"` has a leading token that parses
as the NON-positive integer `-1`, yet the resolver performs the catalog
lookup and yields a resolved `CardInDeck` with quantity `-1` and emits no
`"Invalid quantity"` insight — the code only short-circuits on quantity
`0`. -/
theorem c3_negative_quantity_resolves :
    process_decklist cat3 "-1 Foo" = ([⟨-1, 0, ⟨"Foo", ""⟩⟩], []) := by
  decide

/-- C3 (amended): for every line and every catalog, the line is skipped
with an `"Invalid quantity"` insight, without consulting the catalog,
exactly when its parsed leading quantity is `0` (parse failure and a
missing token default to `0`); any resolved card carries the parsed
quantity, which is then nonzero; and conversely every line with a nonzero
parsed quantity — negative included — whose candidate name the catalog
resolves yields a resolved card with that quantity. -/
theorem c3_zero_quantity_skips_lookup (catalog catalog2 : Catalog)
    (l : List Char) :
    ((parseLine l).1 = 0 →
      processLine catalog l = Sum.inr ⟨(parseLine l).2, "Invalid quantity"⟩
      ∧ processLine catalog l = processLine catalog2 l)
    ∧ (∀ c : CardInDeck, processLine catalog l = Sum.inl c →
        (parseLine l).1 ≠ 0 ∧ c.quantity = (parseLine l).1)
    ∧ ((parseLine l).1 ≠ 0 → ∀ c : ScryfallCard,
        catalog (parseLine l).2 = Except.ok c →
        processLine catalog l
          = Sum.inl ⟨(parseLine l).1, 0, ⟨c.name, scryfallImg c⟩⟩) := by
  refine ⟨?_, ?_, ?_⟩
  · intro h
    constructor <;> simp [processLine, h]
  · intro c hc
    by_cases h : (parseLine l).1 = 0
    · simp [processLine, h] at hc
    · refine ⟨h, ?_⟩
      simp only [processLine, if_neg h] at hc
      cases hcat : catalog (parseLine l).2 with
      | ok c2 => rw [hcat] at hc; cases hc; rfl
      | error e => rw [hcat] at hc; cases hc
  · intro h c hcat
    simp [processLine, h, hcat]

/-- C3 witness: the line `"0 Bad"` parses to quantity `0` and is rejected
with `"Invalid quantity"` regardless of the catalog, while the
negative-quantity line `"-1 Foo"` passes through to the catalog and
resolves. -/
theorem c3_zero_quantity_skips_lookup_witness :
    (parseLine "0 Bad".data).1 = 0
    ∧ processLine cat3 "0 Bad".data = Sum.inr ⟨"Bad", "Invalid quantity"⟩
    ∧ ((parseLine "-1 Foo".data).1 ≠ 0
      ∧ processLine cat3 "-1 Foo".data = Sum.inl ⟨-1, 0, ⟨"Foo", ""⟩⟩) := by
  refine ⟨by decide,
    ((c3_zero_quantity_skips_lookup cat3 cat3 "0 Bad".data).1 (by decide)).1,
    by decide, ?_⟩
  rw [(c3_zero_quantity_skips_lookup cat3 cat3 "-1 Foo".data).2.2 (by decide)
    ⟨"Foo", none⟩ (by rfl)]
  decide

/-- Each element of a sum list lands in exactly one of the two filtered
projections. -/
theorem length_filterMap_sum : ∀ rs : List (Sum CardInDeck CardErrorInsight),
    (rs.filterMap takeResolved).length + (rs.filterMap takeError).length
      = rs.length
  | [] => rfl
  | Sum.inl c :: rs => by
    have := length_filterMap_sum rs
    simp [List.filterMap_cons, takeResolved, takeError]
    omega
  | Sum.inr e :: rs => by
    have := length_filterMap_sum rs
    simp [List.filterMap_cons, takeResolved, takeError]
    omega

/-- C5: resolution drops every non-blank line into exactly one of the two
output buckets, so the counts sum to the number of non-blank lines (hence
are at most it), and both outputs are order-preserving projections of the
per-line results in input line order. -/
theorem c5_partition_counts (catalog : Catalog) (input : String) :
    (process_decklist catalog input).1.length
      + (process_decklist catalog input).2.length
      = (nonBlankLines input).length
    ∧ (process_decklist catalog input).1.length
      + (process_decklist catalog input).2.length
      ≤ (nonBlankLines input).length
    ∧ (process_decklist catalog input).1
      = (nonBlankLines input).filterMap
          (fun l => takeResolved (processLine catalog l))
    ∧ (process_decklist catalog input).2
      = (nonBlankLines input).filterMap
          (fun l => takeError (processLine catalog l)) := by
  have hlen : ((nonBlankLines input).map (processLine catalog)).length
      = (nonBlankLines input).length := List.length_map _ _
  have h := length_filterMap_sum ((nonBlankLines input).map (processLine catalog))
  have heq : (process_decklist catalog input).1.length
      + (process_decklist catalog input).2.length
      = (nonBlankLines input).length := by
    simpa [process_decklist, hlen] using h
  refine ⟨heq, le_of_eq heq, ?_, ?_⟩
  · simp [process_decklist, List.filterMap_map]
    rfl
  · simp [process_decklist, List.filterMap_map]
    rfl

/-- C7: a line whose leading token parses to a positive quantity and whose
candidate name the catalog resolves yields a `CardInDeck` with exactly that
quantity, `current_quantity = 0`, and the catalog's canonical name and image
reference. -/
theorem c7_resolved_card_fields (catalog : Catalog) (l : List Char)
    (c : ScryfallCard) (hpos : 0 < (parseLine l).1)
    (hcat : catalog (parseLine l).2 = Except.ok c) :
    processLine catalog l
      = Sum.inl ⟨(parseLine l).1, 0, ⟨c.name, scryfallImg c⟩⟩ := by
  have h0 : ¬ (parseLine l).1 = 0 := by omega
  simp [processLine, h0, hcat]

/-- C7 witness: `"4 Lightning Bolt"` against a catalog that returns the
canonical card with a small-image url resolves to quantity `4`, current
quantity `0`, and the canonical name and url. -/
theorem c7_resolved_card_fields_witness :
    0 < (parseLine "4 Lightning Bolt".data).1
    ∧ processLine (fun _ => Except.ok ⟨"Lightning Bolt", some ⟨some "u", none⟩⟩)
        "4 Lightning Bolt".data
      = Sum.inl ⟨4, 0, ⟨"Lightning Bolt", "u"⟩⟩ := by
  refine ⟨by decide, ?_⟩
  rw [c7_resolved_card_fields (fun _ => Except.ok ⟨"Lightning Bolt", some ⟨some "u", none⟩⟩)
    "4 Lightning Bolt".data ⟨"Lightning Bolt", some ⟨some "u", none⟩⟩ (by decide) rfl]
  decide

/-- Card serialization round-trips. -/
theorem decodeCard_encodeCard (c : Card) : decodeCard (encodeCard c) = some c := rfl

/-- CardInDeck serialization round-trips. -/
theorem decodeCardInDeck_encodeCardInDeck (c : CardInDeck) :
    decodeCardInDeck (encodeCardInDeck c) = some c := rfl

/-- Card-list serialization round-trips. -/
theorem decodeCards_encode : ∀ cs : List CardInDeck,
    decodeCards (cs.map encodeCardInDeck) = some cs
  | [] => rfl
  | c :: cs => by
    simp [decodeCards, decodeCardInDeck_encodeCardInDeck c,
      decodeCards_encode cs]

/-- Deck serialization round-trips. -/
theorem decodeDeck_encodeDeck (d : Deck) :
    decodeDeck (encodeDeck d) = some d := by
  simp [decodeDeck, encodeDeck, decodeCards_encode d.cards]

/-- Deck-mapping serialization round-trips. -/
theorem decodeDecks_encodeDecks : ∀ m : List (Uuid × Deck),
    decodeDecks (encodeDecks m) = some m
  | [] => rfl
  | (id, d) :: m => by
    have hm := decodeDecks_encodeDecks m
    simp only [decodeDecks, encodeDecks, List.map_cons] at hm ⊢
    simp [decodeEntries, decodeDeck_encodeDeck d, hm]

/-- C8: exporting a state's deck store and importing the payload into any
state succeeds and reproduces the exporter's decks exactly — same ids, same
names, same card lists with both quantities preserved. -/
theorem c8_export_import_roundtrip (s t : AppState) :
    ∃ t2 : AppState, importDecks t (exportDecks s) = some t2
      ∧ t2.decks = s.decks := by
  refine ⟨{ t with
      decks := s.decks
      search_result := []
      image_cache := []
      card_index := s.decks.flatMap (fun p => build_card_index p.1 p.2.cards)
      search_text := "" }, ?_, rfl⟩
  simp [importDecks, exportDecks, decodeDecks_encodeDecks s.decks]

/-- The card index is exactly the concatenation, over the deck store, of
one `IndexedCard` per `CardInDeck` in deck order. -/
def indexInv (s : AppState) : Prop :=
  s.card_index = s.decks.flatMap (fun p => build_card_index p.1 p.2.cards)

/-- Every index entry built for a deck carries that deck's id. -/
theorem deck_id_of_mem_build (k : Uuid) (cs : List CardInDeck) :
    ∀ a ∈ build_card_index k cs, a.deck_id = k := by
  intro a ha
  simp only [build_card_index, List.mem_map] at ha
  obtain ⟨c, _, rfl⟩ := ha
  rfl

/-- Deleting one deck's entries commutes with rebuilding the index. -/
theorem flatMap_filter_key (id : Uuid) : ∀ m : List (Uuid × Deck),
    (m.filter (fun p => p.1 != id)).flatMap
        (fun p => build_card_index p.1 p.2.cards)
      = (m.flatMap (fun p => build_card_index p.1 p.2.cards)).filter
          (fun c => c.deck_id != id)
  | [] => rfl
  | p :: m => by
    have ih := flatMap_filter_key id m
    by_cases h : p.1 = id
    · subst h
      have h1 : (build_card_index p.1 p.2.cards).filter
          (fun c => c.deck_id != p.1) = [] := by
        refine List.filter_eq_nil_iff.mpr ?_
        intro a ha
        simp [deck_id_of_mem_build _ _ a ha]
      simp [List.filter_cons, List.flatMap_cons, List.filter_append, ih, h1]
    · have h1 : (build_card_index p.1 p.2.cards).filter
          (fun c => c.deck_id != id) = build_card_index p.1 p.2.cards := by
        refine List.filter_eq_self.mpr ?_
        intro a ha
        simp [deck_id_of_mem_build _ _ a ha, h]
      simp [List.filter_cons, List.flatMap_cons, List.filter_append, ih, h1, h]

/-- C9: every deck-composition mutation keeps the card index equal to the
concatenation, over the deck store, of one `IndexedCard` per `CardInDeck`
(name, image, owning deck id, in deck card order): creating a deck under a
fresh id, deleting any deck, and any successful import all preserve or
re-establish the reconstruction invariant. -/
theorem c9_index_reconstructible (s : AppState) (hinv : indexInv s) :
    (∀ (id : Uuid) (s2 : AppState),
      s.decks.any (fun p => p.1 == id) = false →
      createDeck s id = some s2 → indexInv s2)
    ∧ (∀ id : Uuid, indexInv (deleteDeck s id))
    ∧ (∀ (payload : Json) (s2 : AppState),
        importDecks s payload = some s2 → indexInv s2) := by
  refine ⟨?_, ?_, ?_⟩
  · intro id s2 hfresh hcreate
    cases hprog : s.deck_in_progress with
    | none => simp [createDeck, hprog] at hcreate
    | some cards =>
      simp only [createDeck, hprog, Option.some.injEq] at hcreate
      subst hcreate
      unfold indexInv at hinv ⊢
      simp [insertDeck, hfresh, hinv]
  · intro id
    unfold indexInv at hinv ⊢
    simp [deleteDeck, hinv, flatMap_filter_key]
  · intro payload s2 himp
    cases hdec : decodeDecks payload with
    | none => simp [importDecks, hdec] at himp
    | some d =>
      simp only [importDecks, hdec, Option.some.injEq] at himp
      subst himp
      rfl

/-- C9 witness: a concrete one-deck state satisfying the invariant still
satisfies it after deleting an id. -/
theorem c9_index_reconstructible_witness :
    indexInv (deleteDeck
      ⟨[("d1", ⟨"A", [⟨1, 0, ⟨"x", "u"⟩⟩]⟩)], "", none, "", "",
        [⟨"x", "u", "d1"⟩], [], []⟩ "d1") :=
  (c9_index_reconstructible
    ⟨[("d1", ⟨"A", [⟨1, 0, ⟨"x", "u"⟩⟩]⟩)], "", none, "", "",
      [⟨"x", "u", "d1"⟩], [], []⟩ rfl).2.1 "d1"

/-- The score comparator is transitive. -/
theorem scoreLE_trans : ∀ x y z : IndexedCard × Int,
    scoreLE x y = true → scoreLE y z = true → scoreLE x z = true := by
  intro x y z
  simp only [scoreLE, decide_eq_true_eq]
  omega

/-- The score comparator is total. -/
theorem scoreLE_total : ∀ x y : IndexedCard × Int,
    (scoreLE x y || scoreLE y x) = true := by
  intro x y
  simp only [scoreLE, Bool.or_eq_true, decide_eq_true_eq]
  omega

/-- Characterization of the index-decorated comparator: strictly larger
score, or equal score and not-later original position. -/
theorem enumLE_scoreLE_iff (x y : Nat × (IndexedCard × Int)) :
    List.enumLE scoreLE x y = true ↔
      (y.2.2 < x.2.2 ∨ (x.2.2 = y.2.2 ∧ x.1 ≤ y.1)) := by
  simp only [List.enumLE, scoreLE]
  split_ifs with h1 h2 <;>
    simp_all [decide_eq_true_eq] <;> omega

/-- The index-decorated comparator is transitive. -/
theorem enumLE_scoreLE_trans : ∀ x y z : Nat × (IndexedCard × Int),
    List.enumLE scoreLE x y = true → List.enumLE scoreLE y z = true →
    List.enumLE scoreLE x z = true := by
  intro x y z hxy hyz
  rw [enumLE_scoreLE_iff] at hxy hyz ⊢
  omega

/-- The index-decorated comparator is total. -/
theorem enumLE_scoreLE_total : ∀ x y : Nat × (IndexedCard × Int),
    (List.enumLE scoreLE x y || List.enumLE scoreLE y x) = true := by
  intro x y
  simp only [Bool.or_eq_true]
  rw [enumLE_scoreLE_iff, enumLE_scoreLE_iff]
  omega

/-- Every decorated pair carries the score of its card. -/
theorem snd_of_mem_scorePairs (matcher : Matcher) (query : String)
    (cards : List IndexedCard) :
    ∀ p ∈ scorePairs matcher query cards,
      p.2 = scoreOf matcher query p.1 := by
  intro p hp
  simp only [scorePairs, List.mem_map] at hp
  obtain ⟨c0, _, rfl⟩ := hp
  rfl

/-- C4: fuzzy search returns exactly `min(top, len)` entries, each drawn
from the index at call time, in descending score order; a no-match entry
scores `0` and is not excluded (with a large enough limit the result is a
permutation of the whole index); and the sort is stable: it coincides with
the sort of the position-decorated pairs, which is simultaneously
score-descending and, on tied scores, ascending in original position. -/
theorem c4_fuzzy_top_n_spec (matcher : Matcher) (query : String)
    (cards : List IndexedCard) (top : Nat) :
    (fuzzy_top_n matcher query cards top).length = min top cards.length
    ∧ (∀ c ∈ fuzzy_top_n matcher query cards top, c ∈ cards)
    ∧ (fuzzy_top_n matcher query cards top).Pairwise
        (fun a b => scoreOf matcher query b ≤ scoreOf matcher query a)
    ∧ (cards.length ≤ top →
        (fuzzy_top_n matcher query cards top).Perm cards)
    ∧ (∀ c : IndexedCard, matcher c.name query = none →
        scoreOf matcher query c = 0)
    ∧ List.map (fun x => x.2)
        ((scorePairs matcher query cards).enum.mergeSort (List.enumLE scoreLE))
      = (scorePairs matcher query cards).mergeSort scoreLE
    ∧ ((scorePairs matcher query cards).enum.mergeSort
        (List.enumLE scoreLE)).Pairwise
        (fun x y => y.2.2 ≤ x.2.2 ∧ (x.2.2 = y.2.2 → x.1 ≤ y.1)) := by
  have hplen : (scorePairs matcher query cards).length = cards.length :=
    List.length_map _ _
  have hslen : ((scorePairs matcher query cards).mergeSort scoreLE).length
      = cards.length := by
    rw [List.length_mergeSort, hplen]
  have hsorted : ((scorePairs matcher query cards).mergeSort
      scoreLE).Pairwise (fun a b => scoreLE a b = true) :=
    List.sorted_mergeSort scoreLE_trans scoreLE_total _
  have hmemsort : ∀ p ∈ (scorePairs matcher query cards).mergeSort scoreLE,
      p.2 = scoreOf matcher query p.1 := by
    intro p hp
    exact snd_of_mem_scorePairs matcher query cards p (List.mem_mergeSort.mp hp)
  refine ⟨?_, ?_, ?_, ?_, ?_, ?_, ?_⟩
  · simp only [fuzzy_top_n, List.length_map, List.length_take, hslen]
    split <;> omega
  · intro c hc
    simp only [fuzzy_top_n, List.mem_map] at hc
    obtain ⟨p, hp, rfl⟩ := hc
    have hp2 := List.mem_mergeSort.mp (List.mem_of_mem_take hp)
    simp only [scorePairs, List.mem_map] at hp2
    obtain ⟨c0, hc0, rfl⟩ := hp2
    exact hc0
  · simp only [fuzzy_top_n]
    rw [List.pairwise_map]
    refine List.Pairwise.imp_of_mem ?_
      (List.Pairwise.sublist (List.take_sublist _ _) hsorted)
    intro p q hp hq hle
    have hp2 := hmemsort p (List.mem_of_mem_take hp)
    have hq2 := hmemsort q (List.mem_of_mem_take hq)
    simp only [scoreLE, decide_eq_true_eq] at hle
    rw [← hp2, ← hq2]
    exact hle
  · intro htop
    have hnot : ¬ top < ((scorePairs matcher query cards).mergeSort
        scoreLE).length := by omega
    have hid : (scorePairs matcher query cards).map Prod.fst = cards := by
      simp [scorePairs, List.map_map, Function.comp_def]
    simp only [fuzzy_top_n, if_neg hnot, List.take_length]
    have hperm := (List.mergeSort_perm (scorePairs matcher query cards)
      scoreLE).map Prod.fst
    rw [hid] at hperm
    exact hperm
  · intro c h
    simp [scoreOf, h]
  · exact List.mergeSort_enum
  · refine (List.sorted_mergeSort enumLE_scoreLE_trans
      enumLE_scoreLE_total _).imp ?_
    intro a b hab
    rw [enumLE_scoreLE_iff] at hab
    constructor
    · omega
    · intro he
      omega

/-- C4 witness: with a matcher that only matches the exact query and a
limit above the index size, the search returns a permutation of the whole
index (so no-match entries are not excluded). -/
theorem c4_fuzzy_top_n_spec_witness :
    (fuzzy_top_n (fun n q => if n = q then some 5 else none) "b"
        [⟨"a", "", "d"⟩, ⟨"b", "", "d"⟩] 10).Perm
      [⟨"a", "", "d"⟩, ⟨"b", "", "d"⟩] :=
  (c4_fuzzy_top_n_spec (fun n q => if n = q then some 5 else none) "b"
    [⟨"a", "", "d"⟩, ⟨"b", "", "d"⟩] 10).2.2.2.1 (by decide)

end MtgOrganizer
